import Mathlib

/-!
Shallow embedding of the core of the JobThai scraper:

* the four-partition job queue of src/queue.js (class JobQueue),
* the worker retry loop of src/worker.js (Worker.start),
* the listing pagination walk of src/scraper.js
  (JobThaiScraper.scrapeJobListings), and
* the JSON file handler of src/utils/file-handler.js (class FileHandler).

Timestamps (Date.now / toISOString) are passed as explicit parameters,
event emissions are dropped (they are pure projections of the state
transitions), and the nondeterministic outcome of each page navigation in
the listing walk is supplied as a function from the iteration index to an
outcome.  Unbounded while-loops are embedded with explicit fuel.
-/

namespace JobThai

/-- A job descriptor as pushed through the queue in src/queue.js: the
listing walk creates it with id/url plus preview fields (elided here), and
the queue operations stamp addedAt/startedAt/completedAt/failedAt,
attempts, error and result. -/
structure Job where
  id : String
  url : String := ""
  addedAt : Option Nat := none
  startedAt : Option Nat := none
  completedAt : Option Nat := none
  failedAt : Option Nat := none
  attempts : Nat := 0
  error : Option String := none
  result : Option String := none
deriving DecidableEq

/-- The four partitions plus the paused flag of class JobQueue
(src/queue.js, constructor). -/
structure JobQueue where
  pending : List Job := []
  processing : List Job := []
  completed : List Job := []
  failed : List Job := []
  paused : Bool := false
deriving DecidableEq

def JobQueue.empty : JobQueue := {}

/-- JobQueue.exists (src/queue.js lines 121-128): the id is searched in
all four partitions.  Renamed because `exists` is a Lean keyword. -/
def JobQueue.existsId (q : JobQueue) (jobId : String) : Bool :=
  q.pending.any (fun j => j.id == jobId) ||
  q.processing.any (fun j => j.id == jobId) ||
  q.completed.any (fun j => j.id == jobId) ||
  q.failed.any (fun j => j.id == jobId)

/-- JobQueue.add (src/queue.js lines 21-35): dedup across all four
partitions, then push to the back of pending with addedAt stamped and
attempts reset to 0. -/
def JobQueue.add (q : JobQueue) (job : Job) (now : Nat) : Bool × JobQueue :=
  if q.existsId job.id then (false, q)
  else
    (true, { q with
      pending := q.pending ++ [{ job with addedAt := some now, attempts := 0 }] })

/-- JobQueue.addBulk (src/queue.js lines 42-50): fold add over the list,
counting the successful insertions. -/
def JobQueue.addBulk (q : JobQueue) (jobs : List Job) (now : Nat) : Nat × JobQueue :=
  jobs.foldl
    (fun acc job =>
      let r := acc.2.add job now
      (if r.1 then acc.1 + 1 else acc.1, r.2))
    (0, q)

/-- JobQueue.getNext (src/queue.js lines 56-68): null when paused or
pending is empty; otherwise shift the head of pending, stamp startedAt,
increment attempts, and push it onto processing. -/
def JobQueue.getNext (q : JobQueue) (now : Nat) : Option Job × JobQueue :=
  if q.paused || q.pending.isEmpty then (none, q)
  else
    match q.pending with
    | [] => (none, q)
    | j :: rest =>
      let j' := { j with startedAt := some now, attempts := j.attempts + 1 }
      (some j', { q with pending := rest, processing := q.processing ++ [j'] })

/-- findIndex followed by splice(index, 1): remove the first element
satisfying p, returning it together with the remaining list. -/
def extractFirst (p : Job → Bool) : List Job → Option (Job × List Job)
  | [] => none
  | j :: rest =>
    if p j then some (j, rest)
    else
      match extractFirst p rest with
      | none => none
      | some (x, l) => some (x, j :: l)

/-- JobQueue.complete (src/queue.js lines 75-87): splice the first
matching entry out of processing, stamp completedAt and result, push onto
completed; false when the id is not in processing. -/
def JobQueue.complete (q : JobQueue) (jobId : String) (result : Option String)
    (now : Nat) : Bool × JobQueue :=
  match extractFirst (fun j => j.id == jobId) q.processing with
  | none => (false, q)
  | some (j, rest) =>
    (true, { q with
      processing := rest,
      completed := q.completed ++ [{ j with completedAt := some now, result := result }] })

/-- JobQueue.fail (src/queue.js lines 95-114): splice the first matching
entry out of processing, record error and failedAt; if retry is requested
and attempts is below the hard-coded limit 3, unshift it to the front of
pending, otherwise push it onto failed. -/
def JobQueue.fail (q : JobQueue) (jobId : String) (errMsg : String) (retry : Bool)
    (now : Nat) : Bool × JobQueue :=
  match extractFirst (fun j => j.id == jobId) q.processing with
  | none => (false, q)
  | some (j, rest) =>
    let j' := { j with error := some errMsg, failedAt := some now }
    if retry && decide (j'.attempts < 3) then
      (true, { q with processing := rest, pending := j' :: q.pending })
    else
      (true, { q with processing := rest, failed := q.failed ++ [j'] })

/-- The per-job reset done by JobQueue.retryFailed (src/queue.js lines
221-225): attempts back to 0, error and failedAt deleted. -/
def resetJob (j : Job) : Job :=
  { j with attempts := 0, error := none, failedAt := none }

/-- JobQueue.retryFailed (src/queue.js lines 219-228): splice all failed
jobs out, reset each, push them one by one to the back of pending, and
return how many were moved. -/
def JobQueue.retryFailed (q : JobQueue) : Nat × JobQueue :=
  let failedJobs := q.failed
  let q1 := { q with failed := [] }
  let q2 := failedJobs.foldl
    (fun acc j => { acc with pending := acc.pending ++ [resetJob j] }) q1
  (failedJobs.length, q2)

/-- One iteration of the worker loop of src/worker.js (Worker.start,
lines 44-69) in the run where processJob always throws: getNext, then
report the failure with retryable set to true (line 64). -/
def JobQueue.failCycle (q : JobQueue) (now : Nat) : JobQueue :=
  match q.getNext now with
  | (none, q') => q'
  | (some j, q') => (q'.fail j.id "err" true now).2

/-- Runs n iterations of the always-failing worker loop. -/
def JobQueue.failAllRun (q : JobQueue) (now : Nat) : Nat → JobQueue
  | 0 => q
  | n + 1 => (q.failCycle now).failAllRun now n

/-- Multiset of job ids of one partition. -/
def idsL (l : List Job) : Multiset String := (l.map Job.id : Multiset String)

/-- Multiset of all job ids known to the queue, across the four
partitions. -/
def JobQueue.idsM (q : JobQueue) : Multiset String :=
  idsL q.pending + idsL q.processing + idsL q.completed + idsL q.failed

/-- The partition invariant: the ids of the four partitions, taken
together, contain no duplicate — equivalently, each partition is
duplicate-free and the four partitions are pairwise disjoint, so every
known id lies in exactly one partition. -/
def JobQueue.Wf (q : JobQueue) : Prop := q.idsM.Nodup

/-! ## File handler (src/utils/file-handler.js) -/

/-- A persisted record; the claims only inspect ids, the remaining merged
detail fields are collapsed into a single payload string. -/
structure Record where
  id : String
  title : String := ""
deriving DecidableEq

/-- The metadata object of the written JSON document.  FileHandler.save
writes totalJobs, lastUpdated and version; FileHandler.backup writes
totalJobs and backupDate.  Fields a given write leaves out are none. -/
structure Metadata where
  totalJobs : Nat
  lastUpdated : Option String := none
  version : Option String := none
  backupDate : Option String := none
deriving DecidableEq

/-- The JSON document shape written to disk: a metadata object plus the
jobs array. -/
structure CatalogDoc where
  metadata : Metadata
  jobs : List Record
deriving DecidableEq

/-- The in-memory state of FileHandler: the jobs array.  The output path
is a constructor argument in the source and is passed explicitly where
needed. -/
structure FileHandler where
  jobs : List Record := []
deriving DecidableEq

/-- FileHandler.hasJob / the duplicate check of addJob (file-handler.js
line 52): some record with this id is already stored. -/
def FileHandler.hasJob (s : FileHandler) (jobId : String) : Bool :=
  s.jobs.any (fun j => j.id == jobId)

/-- FileHandler.save (file-handler.js lines 96-108): the full document
rewritten on every mutation, with totalJobs := jobs.length, lastUpdated
:= the current ISO timestamp and version := "1.0.0". -/
def FileHandler.save (s : FileHandler) (nowIso : String) : CatalogDoc :=
  { metadata :=
      { totalJobs := s.jobs.length
        lastUpdated := some nowIso
        version := some "1.0.0" }
    jobs := s.jobs }

/-- FileHandler.addJob (file-handler.js lines 46-62): reject a duplicate
id with no write; otherwise push the record and save immediately.
Returns the flag, the new state and the document written (none when
nothing was written). -/
def FileHandler.addJob (s : FileHandler) (r : Record) (nowIso : String) :
    Bool × FileHandler × Option CatalogDoc :=
  if s.hasJob r.id then (false, s, none)
  else
    let s' : FileHandler := { jobs := s.jobs ++ [r] }
    (true, s', some (s'.save nowIso))

/-- Replace the first occurrence of pat in a character list by rep; the
list is returned unchanged when pat does not occur. -/
def listReplaceFirst (pat rep : List Char) : List Char → List Char
  | [] => if pat = [] then rep else []
  | c :: rest =>
    if pat.isPrefixOf (c :: rest) then rep ++ (c :: rest).drop pat.length
    else c :: listReplaceFirst pat rep rest

/-- JavaScript String.prototype.replace with a string pattern: replace
only the first occurrence. -/
def replaceFirst (s pat rep : String) : String :=
  ⟨listReplaceFirst pat.data rep.data s.data⟩

/-- The backup filename of FileHandler.backup (file-handler.js line
150): the first ".json" of the output path replaced by
"-backup-<timestamp>.json". -/
def FileHandler.backupPath (outputPath ts : String) : String :=
  replaceFirst outputPath ".json" ("-backup-" ++ ts ++ ".json")

/-- FileHandler.backup (file-handler.js lines 146-161): a no-op when no
jobs are stored; otherwise write a document with metadata {totalJobs,
backupDate} and the jobs array to the timestamp-suffixed path.  Returns
the path and document written, or none; the in-memory state and the
primary file are untouched. -/
def FileHandler.backup (s : FileHandler) (outputPath ts nowIso : String) :
    Option (String × CatalogDoc) :=
  if s.jobs.length == 0 then none
  else
    some (FileHandler.backupPath outputPath ts,
      { metadata := { totalJobs := s.jobs.length, backupDate := some nowIso }
        jobs := s.jobs })

/-! ## Listing pagination walk (src/scraper.js, scrapeJobListings) -/

/-- What one successfully rendered listing page yields: the parsed job
descriptors and the pagination signals of parsePagination — whether a
next link exists and its URL. -/
structure PageData where
  jobs : List Job := []
  hasNext : Bool := false
  nextPageUrl : Option String := none
deriving DecidableEq

/-- Outcome of one navigation attempt in the while-loop body: the page
rendered, or the try-block threw. -/
inductive FetchOutcome where
  | ok (page : PageData)
  | err
deriving DecidableEq

def FetchOutcome.isOk : FetchOutcome → Bool
  | .ok _ => true
  | .err => false

/-- The mutable state of scrapeJobListings: the shared job queue, the
existingIds set (a list here), and pageNum. -/
structure WalkState where
  q : JobQueue := JobQueue.empty
  existing : List String := []
  pageNum : Nat := 1
deriving DecidableEq

/-- How the walk ended: fell out of the while-loop normally (no next
affordance or the maxPages cap), or broke out of the catch block with the
retry budget configured to 0. -/
inductive WalkResult where
  | finished (s : WalkState)
  | aborted (s : WalkState)
deriving DecidableEq

def WalkResult.state : WalkResult → WalkState
  | .finished s => s
  | .aborted s => s

/-- The while-loop of JobThaiScraper.scrapeJobListings (scraper.js lines
157-235), with the environment's response to the i-th navigation given
by fetch i and an explicit fuel bound; none means the loop was still
running when the fuel ran out.  Per iteration: on a throw, retry the same
page when config.retryAttempts > 0 (no retry counting — scraper.js lines
226-229), else break (line 230); on success, filter the parsed jobs
against existingIds, addBulk the survivors, extend existingIds, then stop
if maxPages > 0 and pageNum has reached it (lines 206-209), else follow
the next link if one exists (lines 211-216), else finish (lines
217-220). -/
def listingWalkLoop (fetch : Nat → FetchOutcome) (retryAttempts maxPages now : Nat) :
    Nat → WalkState → Nat → Option WalkResult
  | 0, _, _ => none
  | fuel + 1, s, callIdx =>
    match fetch callIdx with
    | .err =>
      if 0 < retryAttempts then
        listingWalkLoop fetch retryAttempts maxPages now fuel s (callIdx + 1)
      else
        some (.aborted s)
    | .ok page =>
      let newJobs := page.jobs.filter (fun j => !(s.existing.contains j.id))
      let s' : WalkState :=
        { q := (s.q.addBulk newJobs now).2
          existing := s.existing ++ newJobs.map Job.id
          pageNum := s.pageNum }
      if 0 < maxPages ∧ maxPages ≤ s.pageNum then some (.finished s')
      else if page.hasNext && page.nextPageUrl.isSome then
        listingWalkLoop fetch retryAttempts maxPages now fuel
          { s' with pageNum := s'.pageNum + 1 } (callIdx + 1)
      else some (.finished s')

/-- An environment in which every listing page renders and always offers
a further next link (and no jobs). -/
def alwaysNextFetch : Nat → FetchOutcome :=
  fun _ => .ok { jobs := [], hasNext := true, nextPageUrl := some "next" }

/-- An environment in which every navigation attempt throws. -/
def alwaysFailFetch : Nat → FetchOutcome := fun _ => .err

/-! ## Concrete instances used to evaluate the development -/

/-- A queue holding the single freshly enqueued job "X". -/
def singleJobQueue : JobQueue := ((JobQueue.empty).add { id := "X" } 0).2

/-- A queue with one job currently in processing, on its first attempt. -/
def qP : JobQueue := { processing := [{ id := "P", attempts := 1 }] }

/-- A file handler holding one stored record. -/
def fhOne : FileHandler := { jobs := [{ id := "1" }] }

/-! ## Theorems -/

/-- Claim C8: dequeue (JobQueue.getNext) returns none and leaves the
queue untouched whenever the queue is paused or pending is empty;
otherwise it removes exactly the head of pending (FIFO), increments that
job's attempts by one, stamps startedAt, appends it to processing, and
returns it. -/
theorem getNext_spec (q : JobQueue) (t : Nat) :
    ((q.paused = true ∨ q.pending = []) → q.getNext t = (none, q)) ∧
    (∀ j rest, q.paused = false → q.pending = j :: rest →
      q.getNext t =
        (some { j with startedAt := some t, attempts := j.attempts + 1 },
         { q with pending := rest,
                  processing := q.processing ++
                    [{ j with startedAt := some t, attempts := j.attempts + 1 }] })) := by
  constructor
  · rintro (hp | hp) <;> simp [JobQueue.getNext, hp]
  · intro j rest hp hpend
    simp [JobQueue.getNext, hp, hpend]

/-- Witness for C8: on the empty queue getNext yields none; on a queue
whose pending holds exactly job "A" with attempts 0 it moves that job to
processing with attempts 1 and startedAt stamped. -/
theorem getNext_spec_witness :
    JobQueue.empty.getNext 5 = (none, JobQueue.empty) ∧
    ({ pending := [{ id := "A" }] } : JobQueue).getNext 7 =
      (some { id := "A", startedAt := some 7, attempts := 1 },
       { processing := [{ id := "A", startedAt := some 7, attempts := 1 }] }) := by
  refine ⟨(getNext_spec JobQueue.empty 5).1 (Or.inr rfl), ?_⟩
  exact (getNext_spec ({ pending := [{ id := "A" }] } : JobQueue) 7).2 { id := "A" } [] rfl rfl

/-- Claim C5: enqueueing an id already present in any of the four
partitions returns false and changes nothing; enqueueing a fresh id
appends it to pending with attempts 0 and returns true; consequently a
second enqueue of the same id always returns false with the queue
unchanged. -/
theorem add_spec (q : JobQueue) (j : Job) (t t2 : Nat) :
    (q.existsId j.id = true → q.add j t = (false, q)) ∧
    (q.existsId j.id = false →
      q.add j t = (true,
        { q with pending := q.pending ++ [{ j with addedAt := some t, attempts := 0 }] })) ∧
    ((q.add j t).2.add j t2).1 = false ∧
    ((q.add j t).2.add j t2).2 = (q.add j t).2 := by
  have key : ((q.add j t).2.add j t2).1 = false ∧ ((q.add j t).2.add j t2).2 = (q.add j t).2 := by
    cases h : q.existsId j.id with
    | true =>
      have h1 : q.add j t = (false, q) := by simp [JobQueue.add, h]
      rw [h1]
      simp [JobQueue.add, h]
    | false =>
      have h1 : q.add j t =
          (true, { q with pending := q.pending ++ [{ j with addedAt := some t, attempts := 0 }] }) := by
        simp [JobQueue.add, h]
      rw [h1]
      simp [JobQueue.add, JobQueue.existsId]
  exact ⟨fun h => by simp [JobQueue.add, h], fun h => by simp [JobQueue.add, h], key.1, key.2⟩

/-- Witness for C5: a fresh enqueue of "A" into the empty queue succeeds
and lands in pending with attempts 0; repeating it returns false. -/
theorem add_spec_witness :
    JobQueue.empty.add { id := "A" } 0 =
      (true, { pending := [{ id := "A", addedAt := some 0 }] }) ∧
    ((JobQueue.empty.add { id := "A" } 0).2.add { id := "A" } 1).1 = false ∧
    ((JobQueue.empty.add { id := "A" } 0).2.add { id := "A" } 1).2 =
      (JobQueue.empty.add { id := "A" } 0).2 := by
  refine ⟨(add_spec JobQueue.empty { id := "A" } 0 1).2.1 (by decide),
          (add_spec JobQueue.empty { id := "A" } 0 1).2.2.1,
          (add_spec JobQueue.empty { id := "A" } 0 1).2.2.2⟩

/-- The push-one-by-one loop of retryFailed appends the reset jobs, in
order, to the back of pending and touches nothing else. -/
theorem retryFoldl_eq (l : List Job) (acc : JobQueue) :
    l.foldl (fun acc j => { acc with pending := acc.pending ++ [resetJob j] }) acc =
      { acc with pending := acc.pending ++ l.map resetJob } := by
  induction l generalizing acc with
  | nil => simp
  | cons j tl ih => simp [ih, List.append_assoc]

/-- Claim C10: retryFailed empties the failed partition, resets each
removed job's attempts to 0 and clears its error and failedAt fields,
appends all of them (in order) to the back of pending, and returns the
number moved; processing, completed and the paused flag are untouched.
So, through the queue's full public interface, failed is not terminal
within a run. -/
theorem retryFailed_spec (q : JobQueue) :
    (q.retryFailed).1 = q.failed.length ∧
    (q.retryFailed).2.failed = [] ∧
    (q.retryFailed).2.pending = q.pending ++ q.failed.map resetJob ∧
    (∀ j : Job, (resetJob j).attempts = 0 ∧ (resetJob j).error = none ∧
      (resetJob j).failedAt = none ∧ (resetJob j).id = j.id) ∧
    (q.retryFailed).2.processing = q.processing ∧
    (q.retryFailed).2.completed = q.completed ∧
    (q.retryFailed).2.paused = q.paused := by
  refine ⟨rfl, ?_, ?_, fun j => ⟨rfl, rfl, rfl, rfl⟩, ?_, ?_, ?_⟩ <;>
    simp [JobQueue.retryFailed, retryFoldl_eq]

/-- Claim C6: for a record whose id is already stored, addJob returns
false and performs no write; for a fresh id it appends the record,
rewrites the full catalog, and returns true; every saved document has
totalJobs equal to the number of stored records; and addJob preserves
distinctness of stored ids. -/
theorem addJob_spec (s : FileHandler) (r : Record) (nowIso : String) :
    (s.hasJob r.id = true → s.addJob r nowIso = (false, s, none)) ∧
    (s.hasJob r.id = false →
      s.addJob r nowIso =
        (true, { jobs := s.jobs ++ [r] },
         some (FileHandler.save { jobs := s.jobs ++ [r] } nowIso))) ∧
    (∀ t, (s.save t).metadata.totalJobs = (s.save t).jobs.length) ∧
    ((s.jobs.map Record.id).Nodup →
      (((s.addJob r nowIso).2.1).jobs.map Record.id).Nodup) := by
  refine ⟨fun h => by simp [FileHandler.addJob, h],
          fun h => by simp [FileHandler.addJob, h],
          fun t => rfl, ?_⟩
  intro hnd
  cases h : s.hasJob r.id with
  | true => simpa [FileHandler.addJob, h] using hnd
  | false =>
    have hr : ∀ x ∈ s.jobs, x.id ≠ r.id := by
      intro x hx
      have := List.any_eq_false.mp h x hx
      simpa using this
    simp [FileHandler.addJob, h, List.nodup_append, hnd]
    intro x hx hxr
    exact hr x hx (by rw [hxr])

/-- Witness for C6: adding record "1" to a store already holding it is
rejected with no write; adding it to the empty store writes the one-record
catalog with totalJobs 1. -/
theorem addJob_spec_witness :
    fhOne.addJob { id := "1" } "T" = (false, fhOne, none) ∧
    ({ jobs := [] } : FileHandler).addJob { id := "1" } "T" =
      (true, { jobs := [{ id := "1" }] },
       some { metadata := { totalJobs := 1, lastUpdated := some "T", version := some "1.0.0" },
              jobs := [{ id := "1" }] }) := by
  exact ⟨(addJob_spec fhOne { id := "1" } "T").1 (by decide),
         (addJob_spec ({ jobs := [] } : FileHandler) { id := "1" } "T").2.1 (by decide)⟩

/-- Claim C9 counterexample: on a one-record store, backup writes a
document whose metadata holds only totalJobs and backupDate — its
lastUpdated and version (formatVersion) fields are absent — while the
primary save of the very same store writes both.  The backup is therefore
not "the same document shape as the primary catalog with an added
backupDate field". -/
theorem backup_shape_counterexample :
    fhOne.backup "out.json" "TS" "NOW" =
      some ("out-backup-TS.json",
        { metadata := { totalJobs := 1, lastUpdated := none, version := none,
                        backupDate := some "NOW" },
          jobs := [{ id := "1" }] }) ∧
    (fhOne.save "NOW").metadata.lastUpdated = some "NOW" ∧
    (fhOne.save "NOW").metadata.version = some "1.0.0" := by
  refine ⟨?_, rfl, rfl⟩
  decide

/-- Claim C9 (amended): backup is a no-op when the catalog is empty; when
non-empty it writes, at the timestamp-suffixed filename derived from the
primary output path, a copy holding the same records, whose metadata
carries only totalJobs and backupDate (the primary catalog's lastUpdated
and formatVersion fields are not written); the in-memory records and the
primary catalog are left unchanged. -/
theorem backup_spec (s : FileHandler) (op ts nowIso : String) :
    (s.jobs = [] → s.backup op ts nowIso = none) ∧
    (s.jobs ≠ [] →
      s.backup op ts nowIso =
        some (FileHandler.backupPath op ts,
          { metadata := { totalJobs := s.jobs.length, lastUpdated := none,
                          version := none, backupDate := some nowIso }
            jobs := s.jobs })) := by
  constructor
  · intro h; simp [FileHandler.backup, h]
  · intro h
    have : (s.jobs.length == 0) = false := by
      simpa [List.length_eq_zero] using h
    simp [FileHandler.backup, this]

/-- Witness for C9: the empty store backs up to nothing; a two-record
store backs up to the suffixed path with totalJobs 2 and no
lastUpdated/version. -/
theorem backup_spec_witness :
    ({ jobs := [] } : FileHandler).backup "o.json" "T" "N" = none ∧
    ({ jobs := [{ id := "2" }, { id := "3" }] } : FileHandler).backup "o.json" "T" "N" =
      some (FileHandler.backupPath "o.json" "T",
        { metadata := { totalJobs := 2, lastUpdated := none, version := none,
                        backupDate := some "N" },
          jobs := [{ id := "2" }, { id := "3" }] }) := by
  exact ⟨(backup_spec ({ jobs := [] }) "o.json" "T" "N").1 rfl,
         (backup_spec ({ jobs := [{ id := "2" }, { id := "3" }] }) "o.json" "T" "N").2
           (by decide)⟩

/-- Claim C1 counterexample: every failure is reported retryable, yet the
job enqueued into a fresh queue is not in failed after its 1st processing
attempt (it is back in pending with attempts 1), and it lands in failed
exactly after its 3rd attempt.  With a configured retryAttempts of 1 (or
any value other than 3) this contradicts "failed only after exactly
retryAttempts attempts": the queue's limit is the hard-coded 3 of
JobQueue.fail, and the configured retryAttempts is never consulted. -/
theorem retry_bound_counterexample :
    (singleJobQueue.failAllRun 1 1).failed = [] ∧
    (singleJobQueue.failAllRun 1 1).pending.map (fun j => (j.id, j.attempts)) = [("X", 1)] ∧
    (singleJobQueue.failAllRun 1 3).failed.map (fun j => (j.id, j.attempts)) = [("X", 3)] := by
  refine ⟨rfl, rfl, rfl⟩

/-- Claim C1 (amended): with every worker failure reported retryable, a
job enqueued into the fresh queue lands in the failed partition after
exactly 3 processing attempts — the limit hard-coded in JobQueue.fail —
never fewer (after 1 or 2 attempts failed is still empty), never more
(the run is stable after the 3rd), regardless of the configured
retryAttempts, which the queue never reads. -/
theorem retry_bound_three (j : Job) (t t2 : Nat) :
    ((((JobQueue.empty).add j t).2).failAllRun t2 1).failed = [] ∧
    ((((JobQueue.empty).add j t).2).failAllRun t2 2).failed = [] ∧
    ((((JobQueue.empty).add j t).2).failAllRun t2 3).failed =
      [{ j with addedAt := some t, startedAt := some t2, attempts := 3,
                error := some "err", failedAt := some t2 }] ∧
    (((JobQueue.empty).add j t).2).failAllRun t2 4 =
      (((JobQueue.empty).add j t).2).failAllRun t2 3 := by
  refine ⟨?_, ?_, ?_, ?_⟩ <;>
    simp [JobQueue.empty, JobQueue.add, JobQueue.existsId, JobQueue.failAllRun,
          JobQueue.failCycle, JobQueue.getNext, JobQueue.fail, extractFirst]

/-- When every fetched page offers a next link and maxPages is 0, the
listing walk consumes any amount of fuel without reaching an exit. -/
theorem walkLoop_allNext_none (retryAttempts now : Nat) :
    ∀ fuel s callIdx,
      listingWalkLoop alwaysNextFetch retryAttempts 0 now fuel s callIdx = none := by
  intro fuel
  induction fuel with
  | zero => intro s c; rfl
  | succ f ih =>
    intro s c
    simp [listingWalkLoop, alwaysNextFetch, ih]

/-- When every navigation throws and the retry budget is positive, the
walk retries the same page forever, consuming any amount of fuel without
aborting. -/
theorem walkLoop_errLoop_none (fetch : Nat → FetchOutcome)
    (retryAttempts maxPages now : Nat) (hr : 0 < retryAttempts)
    (hf : ∀ k, fetch k = .err) :
    ∀ fuel s callIdx,
      listingWalkLoop fetch retryAttempts maxPages now fuel s callIdx = none := by
  intro fuel
  induction fuel with
  | zero => intro s c; rfl
  | succ f ih =>
    intro s c
    simp [listingWalkLoop, hf c, hr, ih]

/-- Claim C3 counterexample: with maxPages = 0 (unbounded) and every page
presenting a next affordance, the walk is still running after 600
iterations — past the claimed ~500-page safety ceiling.  scrapeJobListings
has no such ceiling and, in this environment, never terminates. -/
theorem pagination_termination_counterexample :
    listingWalkLoop alwaysNextFetch 3 0 0 600 {} 0 = none :=
  walkLoop_allNext_none 3 0 600 {} 0

/-- Claim C3 (amended): the listing walk terminates when the configured
page cap is positive — within maxPages successful pages — and stops as
soon as a rendered page offers no usable next affordance; but there is no
hard safety ceiling: with maxPages = 0 and every page presenting a next
affordance, the walk never terminates. -/
theorem pagination_termination (fetch : Nat → FetchOutcome)
    (retryAttempts maxPages now : Nat) :
    (∀ fuel s callIdx, (∀ k, (fetch k).isOk = true) → 0 < maxPages →
      s.pageNum ≤ maxPages → maxPages + 1 ≤ fuel + s.pageNum →
      (listingWalkLoop fetch retryAttempts maxPages now fuel s callIdx).isSome = true) ∧
    (∀ fuel s callIdx page, fetch callIdx = .ok page →
      (page.hasNext && page.nextPageUrl.isSome) = false →
      ¬(0 < maxPages ∧ maxPages ≤ s.pageNum) →
      ∃ s2, listingWalkLoop fetch retryAttempts maxPages now (fuel + 1) s callIdx =
        some (.finished s2)) ∧
    ((∀ k, ∃ page, fetch k = .ok page ∧ page.hasNext = true ∧
        page.nextPageUrl.isSome = true) →
      maxPages = 0 →
      ∀ fuel s callIdx,
        listingWalkLoop fetch retryAttempts maxPages now fuel s callIdx = none) := by
  refine ⟨?_, ?_, ?_⟩
  · intro fuel
    induction fuel with
    | zero =>
      intro s c _ _ h1 h2
      omega
    | succ f ih =>
      intro s c hok hpos h1 h2
      obtain ⟨page, hpage⟩ : ∃ page, fetch c = .ok page := by
        have := hok c
        cases hfc : fetch c with
        | ok p => exact ⟨p, rfl⟩
        | err => rw [hfc] at this; exact absurd this (by simp [FetchOutcome.isOk])
      by_cases hcap : 0 < maxPages ∧ maxPages ≤ s.pageNum
      · simp [listingWalkLoop, hpage, hcap]
      · have hlt : s.pageNum < maxPages := by omega
        by_cases hnx : (page.hasNext && page.nextPageUrl.isSome) = true
        · simp only [listingWalkLoop, hpage, if_neg hcap, hnx, if_true]
          refine ih _ _ hok hpos ?_ ?_
          · show s.pageNum + 1 ≤ maxPages
            omega
          · show maxPages + 1 ≤ f + (s.pageNum + 1)
            omega
        · simp [listingWalkLoop, hpage, hcap, hnx]
  · intro fuel s c page hpage hnx hcap
    simp [listingWalkLoop, hpage, hcap, hnx]
  · intro hall h0 fuel
    induction fuel with
    | zero => intro s c; rfl
    | succ f ih =>
      intro s c
      obtain ⟨page, hpage, hnext, hurl⟩ := hall c
      subst h0
      simp [listingWalkLoop, hpage, hnext, hurl, ih]

/-- Witness for C3: with a 3-page cap the all-next walk terminates within
3 pages of fuel, while with maxPages = 0 it is still running after 7. -/
theorem pagination_termination_witness :
    (listingWalkLoop alwaysNextFetch 3 3 0 3 {} 0).isSome = true ∧
    listingWalkLoop alwaysNextFetch 3 0 0 7 {} 0 = none := by
  refine ⟨(pagination_termination alwaysNextFetch 3 3 0).1 3 {} 0
      (fun k => rfl) (by decide) (by decide) (by decide), ?_⟩
  exact (pagination_termination alwaysNextFetch 3 0 0).2.2
    (fun k => ⟨_, rfl, rfl, rfl⟩) rfl 7 {} 0

/-- Claim C4 counterexample: with a retry budget of 1 and a page whose
fetch always throws, the walk has retried that same page far more than
once after 10 iterations and has still not aborted: scrapeJobListings
never counts page-level retries against the budget, so the budget is
never exhausted. -/
theorem page_retry_counterexample :
    listingWalkLoop alwaysFailFetch 1 0 0 10 {} 0 = none :=
  walkLoop_errLoop_none alwaysFailFetch 1 0 0 (by decide) (fun _ => rfl) 10 {} 0

/-- Claim C4 (amended): on a page-level fetch error the walk aborts
immediately — with everything already enqueued (the whole walk state)
preserved — when retryAttempts is 0; when retryAttempts is positive the
same page is retried after a fixed backoff with no retry counting, so
against a persistently failing fetch the walk never aborts (the budget is
never exhausted). -/
theorem page_retry (fetch : Nat → FetchOutcome) (maxPages now : Nat) :
    (∀ fuel s callIdx, fetch callIdx = .err →
      listingWalkLoop fetch 0 maxPages now (fuel + 1) s callIdx = some (.aborted s)) ∧
    (∀ retryAttempts, 0 < retryAttempts → (∀ k, fetch k = .err) →
      ∀ fuel s callIdx,
        listingWalkLoop fetch retryAttempts maxPages now fuel s callIdx = none) := by
  constructor
  · intro fuel s c hc
    simp [listingWalkLoop, hc]
  · intro retryAttempts hr hf
    exact walkLoop_errLoop_none fetch retryAttempts maxPages now hr hf

/-- Witness for C4: with budget 0 the first throw aborts the walk with
the state intact; with budget 1 the always-throwing walk is still running
after 5 iterations. -/
theorem page_retry_witness :
    listingWalkLoop alwaysFailFetch 0 0 0 1 {} 0 = some (.aborted {}) ∧
    listingWalkLoop alwaysFailFetch 1 0 0 5 {} 0 = none := by
  exact ⟨(page_retry alwaysFailFetch 0 0).1 0 {} 0 rfl,
         (page_retry alwaysFailFetch 0 0).2 1 (by decide) (fun _ => rfl) 5 {} 0⟩

/-! ## Multiset bookkeeping for the partition invariant -/

theorem idsL_append (a b : List Job) : idsL (a ++ b) = idsL a + idsL b := by
  simp only [idsL, List.map_append]
  exact (Multiset.coe_add _ _).symm

theorem idsL_cons (j : Job) (l : List Job) : idsL (j :: l) = j.id ::ₘ idsL l := by
  simp only [idsL, List.map_cons]
  exact (Multiset.cons_coe _ _).symm

theorem idsM_eq (q : JobQueue) :
    q.idsM = idsL q.pending + idsL q.processing + idsL q.completed + idsL q.failed := rfl

theorem idsM_mk (pend proc comp flr : List Job) (pause : Bool) :
    JobQueue.idsM { pending := pend, processing := proc, completed := comp,
                    failed := flr, paused := pause } =
      idsL pend + idsL proc + idsL comp + idsL flr := rfl

/-- extractFirst p removes exactly one element, which satisfies p: as
multisets, the input is that element added to the output. -/
theorem extractFirst_eq_some (p : Job → Bool) :
    ∀ (l rest : List Job) (j : Job),
      extractFirst p l = some (j, rest) →
      p j = true ∧ (l : Multiset Job) = j ::ₘ (rest : Multiset Job) := by
  intro l
  induction l with
  | nil => intro rest j h; exact absurd h (by simp [extractFirst])
  | cons k tl ih =>
    intro rest j h
    by_cases hk : p k = true
    · rw [extractFirst, if_pos hk] at h
      injection h with h1
      injection h1 with h2 h3
      subst h2; subst h3
      exact ⟨hk, rfl⟩
    · rw [extractFirst, if_neg hk] at h
      cases htl : extractFirst p tl with
      | none => rw [htl] at h; cases h
      | some xr =>
        obtain ⟨x, l2⟩ := xr
        rw [htl] at h
        injection h with h1
        injection h1 with h2 h3
        obtain ⟨hpj, hperm⟩ := ih l2 x htl
        subst h3
        subst h2
        refine ⟨hpj, ?_⟩
        rw [← Multiset.cons_coe, hperm, Multiset.cons_swap, Multiset.cons_coe]

/-- The id multisets of the input and output of extractFirst. -/
theorem extractFirst_idsL (p : Job → Bool) (l rest : List Job) (j : Job)
    (h : extractFirst p l = some (j, rest)) :
    idsL l = j.id ::ₘ idsL rest := by
  have h2 := (extractFirst_eq_some p l rest j h).2
  have h3 : ((l : Multiset Job).map Job.id) =
      ((j ::ₘ (rest : Multiset Job)).map Job.id) := by rw [h2]
  simpa [idsL, Multiset.map_cons] using h3

/-- JobQueue.exists answers true exactly when the id is in one of the four
partitions. -/
theorem existsId_true_iff (q : JobQueue) (i : String) :
    q.existsId i = true ↔ i ∈ q.idsM := by
  simp [JobQueue.existsId, JobQueue.idsM, idsL, List.any_eq_true,
        Multiset.mem_add, Multiset.mem_coe, List.mem_map, or_assoc]

/-- The two outcomes of JobQueue.add: a duplicate changes nothing, a
fresh id adds exactly that id to the queue's id multiset. -/
theorem add_cases (q : JobQueue) (j : Job) (t : Nat) :
    (q.existsId j.id = true ∧ q.add j t = (false, q)) ∨
    (q.existsId j.id = false ∧ (q.add j t).1 = true ∧
      (q.add j t).2.idsM = j.id ::ₘ q.idsM) := by
  cases h : q.existsId j.id with
  | true => exact Or.inl ⟨rfl, by simp [JobQueue.add, h]⟩
  | false =>
    refine Or.inr ⟨rfl, by simp [JobQueue.add, h], ?_⟩
    have h2 : (q.add j t).2 =
        { q with pending := q.pending ++
                   [{ j with addedAt := some t, attempts := 0 }] } := by
      simp [JobQueue.add, h]
    have hsing : idsL [{ j with addedAt := some t, attempts := 0 }] = {j.id} := rfl
    rw [h2, idsM_mk, idsM_eq, idsL_append, hsing]
    simp only [← Multiset.singleton_add]
    abel

theorem wf_of_idsM_eq {q q' : JobQueue} (h : q'.idsM = q.idsM) (hwf : q.Wf) : q'.Wf := by
  unfold JobQueue.Wf at *
  rw [h]
  exact hwf

theorem add_wf (q : JobQueue) (j : Job) (t : Nat) (hwf : q.Wf) : (q.add j t).2.Wf := by
  rcases add_cases q j t with ⟨_, h2⟩ | ⟨hex, _, hids⟩
  · rw [h2]; exact hwf
  · unfold JobQueue.Wf
    rw [hids]
    refine Multiset.nodup_cons.mpr ⟨?_, hwf⟩
    intro hmem
    have htrue := (existsId_true_iff q j.id).mpr hmem
    rw [hex] at htrue
    cases htrue

theorem addBulk_wf_aux (t : Nat) :
    ∀ (jobs : List Job) (acc : Nat × JobQueue), acc.2.Wf →
      (jobs.foldl (fun acc job =>
        let r := acc.2.add job t
        (if r.1 then acc.1 + 1 else acc.1, r.2)) acc).2.Wf := by
  intro jobs
  induction jobs with
  | nil => intro acc h; exact h
  | cons j tl ih =>
    intro acc h
    rw [List.foldl_cons]
    exact ih _ (add_wf acc.2 j t h)

theorem getNext_idsM (q : JobQueue) (t : Nat) : (q.getNext t).2.idsM = q.idsM := by
  cases hb : q.paused with
  | true => simp [JobQueue.getNext, hb]
  | false =>
    cases hp : q.pending with
    | nil => simp [JobQueue.getNext, hb, hp]
    | cons j rest =>
      have h2 : (q.getNext t).2 =
          { q with pending := rest,
                   processing := q.processing ++
                     [{ j with startedAt := some t, attempts := j.attempts + 1 }] } := by
        simp [JobQueue.getNext, hb, hp]
      have hsing : idsL [{ j with startedAt := some t, attempts := j.attempts + 1 }] =
          {j.id} := rfl
      rw [h2, idsM_mk, idsM_eq, hp, idsL_append, hsing, idsL_cons]
      simp only [← Multiset.singleton_add]
      abel

theorem complete_idsM (q : JobQueue) (i : String) (r : Option String) (t : Nat) :
    (q.complete i r t).2.idsM = q.idsM := by
  cases h : extractFirst (fun j => j.id == i) q.processing with
  | none => simp [JobQueue.complete, h]
  | some jr =>
    obtain ⟨j, rest⟩ := jr
    have hids := extractFirst_idsL _ q.processing rest j h
    have h2 : (q.complete i r t).2 =
        { q with processing := rest,
                 completed := q.completed ++
                   [{ j with completedAt := some t, result := r }] } := by
      simp [JobQueue.complete, h]
    have hsing : idsL [{ j with completedAt := some t, result := r }] = {j.id} := rfl
    rw [h2, idsM_mk, idsM_eq, hids, idsL_append, hsing]
    simp only [← Multiset.singleton_add]
    abel

theorem fail_idsM (q : JobQueue) (i e : String) (b : Bool) (t : Nat) :
    (q.fail i e b t).2.idsM = q.idsM := by
  cases h : extractFirst (fun j => j.id == i) q.processing with
  | none => simp [JobQueue.fail, h]
  | some jr =>
    obtain ⟨j, rest⟩ := jr
    have hids := extractFirst_idsL _ q.processing rest j h
    by_cases hb : (b && decide (j.attempts < 3)) = true
    · have h2 : (q.fail i e b t).2 =
          { q with processing := rest,
                   pending := { j with error := some e, failedAt := some t } :: q.pending } := by
        simp [JobQueue.fail, h, hb]
      have hsing : idsL ({ j with error := some e, failedAt := some t } :: q.pending) =
          j.id ::ₘ idsL q.pending := idsL_cons _ _
      rw [h2, idsM_mk, idsM_eq, hids, hsing]
      simp only [← Multiset.singleton_add]
      abel
    · have h2 : (q.fail i e b t).2 =
          { q with processing := rest,
                   failed := q.failed ++
                     [{ j with error := some e, failedAt := some t }] } := by
        simp [JobQueue.fail, h, hb]
      have hsing : idsL [{ j with error := some e, failedAt := some t }] = {j.id} := rfl
      rw [h2, idsM_mk, idsM_eq, hids, idsL_append, hsing]
      simp only [← Multiset.singleton_add]
      abel

/-- Claim C2: under the partition invariant — the ids across pending,
processing, completed and failed form a duplicate-free multiset, so the
four partitions are pairwise disjoint and every known id lies in exactly
one of them — every queue operation preserves the invariant; moreover
getNext, complete and fail preserve the id multiset exactly (ids only
move between partitions), a successful add contributes exactly the new
id, and a rejected add leaves the queue untouched. -/
theorem partition_invariant (q : JobQueue) (hwf : q.Wf) :
    (∀ j t, (q.add j t).2.Wf ∧
      ((q.add j t).1 = true → (q.add j t).2.idsM = j.id ::ₘ q.idsM) ∧
      ((q.add j t).1 = false → (q.add j t).2 = q)) ∧
    (∀ jobs t, (q.addBulk jobs t).2.Wf) ∧
    (∀ t, (q.getNext t).2.Wf ∧ (q.getNext t).2.idsM = q.idsM) ∧
    (∀ i r t, (q.complete i r t).2.Wf ∧ (q.complete i r t).2.idsM = q.idsM) ∧
    (∀ i e b t, (q.fail i e b t).2.Wf ∧ (q.fail i e b t).2.idsM = q.idsM) := by
  refine ⟨fun j t => ⟨add_wf q j t hwf, ?_, ?_⟩,
          fun jobs t => addBulk_wf_aux t jobs (0, q) hwf,
          fun t => ⟨wf_of_idsM_eq (getNext_idsM q t) hwf, getNext_idsM q t⟩,
          fun i r t => ⟨wf_of_idsM_eq (complete_idsM q i r t) hwf, complete_idsM q i r t⟩,
          fun i e b t => ⟨wf_of_idsM_eq (fail_idsM q i e b t) hwf, fail_idsM q i e b t⟩⟩
  · intro h1
    rcases add_cases q j t with ⟨_, h2⟩ | ⟨_, _, hids⟩
    · rw [h2] at h1; cases h1
    · exact hids
  · intro h1
    rcases add_cases q j t with ⟨_, h2⟩ | ⟨_, htrue, _⟩
    · rw [h2]
    · rw [htrue] at h1; cases h1

/-- Witness for C2: the empty queue satisfies the invariant, adding "A"
to it preserves the invariant, and the resulting id multiset is exactly
{"A"}. -/
theorem partition_invariant_witness :
    JobQueue.empty.Wf ∧
    (JobQueue.empty.add { id := "A" } 0).2.Wf ∧
    (JobQueue.empty.add { id := "A" } 0).2.idsM = ("A" : String) ::ₘ JobQueue.empty.idsM := by
  have hwf : JobQueue.empty.Wf := by
    show Multiset.Nodup _
    simp [JobQueue.idsM, idsL, JobQueue.empty]
  exact ⟨hwf, ((partition_invariant JobQueue.empty hwf).1 { id := "A" } 0).1,
         ((partition_invariant JobQueue.empty hwf).1 { id := "A" } 0).2.1 rfl⟩

/-- Under a duplicate-free id list, the first entry matching a member's
id is that member itself. -/
theorem extractFirst_of_mem_nodup :
    ∀ (l : List Job) (j : Job), (l.map Job.id).Nodup → j ∈ l →
      ∃ rest, extractFirst (fun x => x.id == j.id) l = some (j, rest) := by
  intro l
  induction l with
  | nil => intro j _ hm; cases hm
  | cons k tl ih =>
    intro j hn hm
    rw [List.map_cons, List.nodup_cons] at hn
    obtain ⟨hk_notin, hn2⟩ := hn
    by_cases hk : k.id = j.id
    · have hjk : j = k := by
        rcases List.mem_cons.mp hm with h | h
        · exact h
        · exfalso
          apply hk_notin
          rw [hk]
          exact List.mem_map_of_mem Job.id h
      subst hjk
      exact ⟨tl, by simp [extractFirst]⟩
    · have hm2 : j ∈ tl := by
        rcases List.mem_cons.mp hm with h | h
        · exact absurd (by rw [h]) hk
        · exact h
      obtain ⟨rest, hrest⟩ := ih j hn2 hm2
      refine ⟨k :: rest, ?_⟩
      have hkb : (k.id == j.id) = false := by simp [hk]
      simp [extractFirst, hkb, hrest]

/-- The processing partition of an invariant-respecting queue has
duplicate-free ids. -/
theorem wf_processing_nodup (q : JobQueue) (hwf : q.Wf) : (q.processing.map Job.id).Nodup := by
  unfold JobQueue.Wf at hwf
  rw [idsM_eq, Multiset.nodup_add] at hwf
  obtain ⟨h1, _, _⟩ := hwf
  rw [Multiset.nodup_add] at h1
  obtain ⟨h2, _, _⟩ := h1
  rw [Multiset.nodup_add] at h2
  obtain ⟨_, h3, _⟩ := h2
  exact Multiset.coe_nodup.mp h3

/-- Claim C7: for a job in processing of an invariant-respecting queue,
fail removes it from processing; when retryable and its attempts are
below the hard-coded limit 3 it is re-inserted at the front of pending —
ahead of all untried work — keeping its id and accumulated attempts, with
failed untouched; otherwise it is appended to failed permanently with
pending untouched. -/
theorem fail_spec (q : JobQueue) (j : Job) (e : String) (retry : Bool) (t : Nat)
    (hwf : q.Wf) (hm : j ∈ q.processing) :
    (q.fail j.id e retry t).1 = true ∧
    (∀ x ∈ (q.fail j.id e retry t).2.processing, x.id ≠ j.id) ∧
    (retry = true → j.attempts < 3 →
      (q.fail j.id e retry t).2.pending =
        { j with error := some e, failedAt := some t } :: q.pending ∧
      (q.fail j.id e retry t).2.failed = q.failed ∧
      (q.fail j.id e retry t).2.completed = q.completed) ∧
    ((retry = false ∨ 3 ≤ j.attempts) →
      (q.fail j.id e retry t).2.failed =
        q.failed ++ [{ j with error := some e, failedAt := some t }] ∧
      (q.fail j.id e retry t).2.pending = q.pending ∧
      (q.fail j.id e retry t).2.completed = q.completed) := by
  have hnd := wf_processing_nodup q hwf
  obtain ⟨rest, hrest⟩ := extractFirst_of_mem_nodup q.processing j hnd hm
  have hids := extractFirst_idsL _ q.processing rest j hrest
  have hnotin : ∀ x ∈ rest, x.id ≠ j.id := by
    intro x hx hxe
    have hnd2 : (j.id ::ₘ idsL rest).Nodup := by
      rw [← hids]
      exact Multiset.coe_nodup.mpr hnd
    apply (Multiset.nodup_cons.mp hnd2).1
    rw [← hxe]
    exact Multiset.mem_map_of_mem _ (Multiset.mem_coe.mpr hx)
  have hproc : (q.fail j.id e retry t).2.processing = rest := by
    by_cases hb : (retry && decide (j.attempts < 3)) = true <;>
      simp [JobQueue.fail, hrest, hb]
  refine ⟨?_, ?_, ?_, ?_⟩
  · by_cases hb : (retry && decide (j.attempts < 3)) = true <;>
      simp [JobQueue.fail, hrest, hb]
  · intro x hx
    rw [hproc] at hx
    exact hnotin x hx
  · intro hr ha
    have hb : (retry && decide (j.attempts < 3)) = true := by
      rw [hr]
      simp [ha]
    refine ⟨?_, ?_, ?_⟩ <;> simp [JobQueue.fail, hrest, hb]
  · intro h
    have hb : (retry && decide (j.attempts < 3)) = false := by
      rcases h with h | h
      · rw [h]; rfl
      · simp [Nat.not_lt.mpr h]
    refine ⟨?_, ?_, ?_⟩ <;> simp [JobQueue.fail, hrest, hb]

/-- Witness for C7: failing the in-flight job "P" (attempts 1) with
retryable true puts it at the front of pending with its error recorded
and leaves failed empty. -/
theorem fail_spec_witness :
    (qP.fail "P" "boom" true 5).1 = true ∧
    (qP.fail "P" "boom" true 5).2.pending =
      [{ id := "P", attempts := 1, error := some "boom", failedAt := some 5 }] ∧
    (qP.fail "P" "boom" true 5).2.failed = [] := by
  have hwf : qP.Wf := by
    show Multiset.Nodup _
    simp [JobQueue.idsM, idsL, qP]
  have h := fail_spec qP { id := "P", attempts := 1 } "boom" true 5 hwf (by simp [qP])
  refine ⟨h.1, ?_, ?_⟩
  · have h3 := (h.2.2.1 rfl (by decide)).1
    simpa [qP] using h3
  · exact (h.2.2.1 rfl (by decide)).2.1

end JobThai
